import Mathlib

/-!
Verification of the netatmo weather-station synchronizer (`netatmo.py`).

The development shallowly embeds the parts of the source that the checked
properties are about:

* `last_timestamp` — recovery of the resume cursor from the tail of a CSV
  sink file (bytes are modelled as `List Char`, the file as
  `Option (List Char)` with `none` for a missing file);
* the page-processing loop of `dl_csv` — the per-stream download loop,
  with the remote measurement responses supplied as an explicit list
  (one entry per request the loop issues);
* the token manager — `auth`, `load_credentials`, `load_tokens`,
  `save_tokens`, `save_credentials` and the `access_token` property of
  class `WeatherStation`, with the configuration file modelled as a
  record of its two sections and network responses supplied explicitly.

Python-specific behaviours are reproduced exactly where they matter:
`str.find` returning -1 (so that `s[0:s.find(c)]` drops the final
character when `c` is absent), `sorted` on a dict's items ordering keys
lexicographically as strings, truthiness of `0`/`None`/empty values in
`if` guards, and the statement-by-statement assignment order inside
`try` blocks of `load_tokens`.
-/

/-! ## Byte-level model of the sink file and `last_timestamp` -/

/-- Decimal value of a digit string, as Python `int` computes it on an
all-digit string. -/
def digitsToNat (l : List Char) : Nat :=
  l.foldl (fun a c => a * 10 + (c.toNat - 48)) 0

/-- ASCII decimal digit test (code points 48–57). -/
def pyDigit (c : Char) : Bool :=
  48 ≤ c.toNat && c.toNat ≤ 57

/-- Python `str.isnumeric` restricted to ASCII content: true iff the
string is non-empty and all characters are digits. -/
def pyIsNumeric (l : List Char) : Bool :=
  !l.isEmpty && l.all pyDigit

/-- Helper for `pyLines`: accumulates the current (reversed) line. -/
def pyLinesAux (cur : List Char) : List Char → List (List Char)
  | [] => if cur.isEmpty then [] else [cur.reverse]
  | c :: cs =>
    if c = '\n' then (cur.reverse ++ ['\n']) :: pyLinesAux [] cs
    else pyLinesAux (c :: cur) cs

/-- Python `file.readlines()` on a byte string: splits after each
newline, keeps the terminator, and produces no empty final entry when
the content ends with a newline. -/
def pyLines (s : List Char) : List (List Char) := pyLinesAux [] s

/-- `last[0 : last.find(";")]` from `last_timestamp`: everything before
the first `';'` when one occurs; when `find` returns -1 the slice
`[0:-1]` keeps everything but the final character. -/
def pyLeadingField (l : List Char) : List Char :=
  if l.contains ';' then l.takeWhile (fun c => c ≠ ';') else l.dropLast

/-- `last_timestamp(filename)` from `netatmo.py`: `none` models a
missing file.  Reads the final `min(size, 100)` bytes, takes the last
line of that window, extracts the leading field up to the first `';'`,
and returns its integer value when it is numeric, else 0. -/
def last_timestamp (file : Option (List Char)) : Nat :=
  match file with
  | none => 0
  | some content =>
    let taille := min content.length 100
    if taille = 0 then 0
    else
      let window := content.drop (content.length - taille)
      let last := (pyLines window).getLastD []
      let ts := pyLeadingField last
      if pyIsNumeric ts then digitsToNat ts else 0

/-! ## Measurement pages and the `dl_csv` loop -/

/-- One decoded JSON response of `getmeasure`, as `dl_csv` consumes it:
an optional `status` field (`none` when the key is absent) and the
`body` finite map from timestamp strings to value lists.  Values are
never inspected by the loop, only copied to the sink. -/
structure Measures where
  status : Option (List Char)
  body : List (List Char × List Int)
deriving Repr, DecidableEq

/-- The guard `"status" not in measures or measures["status"] != "ok"`
negated: true exactly when the status field is present and equals
`"ok"`. -/
def statusOk (m : Measures) : Bool :=
  m.status = some "ok".data

/-- Python string comparison `a < b`: lexicographic on code points. -/
def pyStrLt : List Char → List Char → Bool
  | [], [] => false
  | [], _ :: _ => true
  | _ :: _, [] => false
  | a :: as, b :: bs =>
    if a.toNat < b.toNat then true
    else if b.toNat < a.toNat then false
    else pyStrLt as bs

/-- Insert an item into a list sorted by the strict order on its first
component (keys being distinct in a dict, any stable placement among
equals is unobservable). -/
def insertByKey (p : List Char × List Int) :
    List (List Char × List Int) → List (List Char × List Int)
  | [] => [p]
  | q :: qs => if pyStrLt p.1 q.1 then p :: q :: qs else q :: insertByKey p qs

/-- Python `sorted(d.items())` on a dict with string keys: insertion
sort by the lexicographic order on the key strings. -/
def sortByKey : List (List Char × List Int) → List (List Char × List Int)
  | [] => []
  | p :: ps => insertByKey p (sortByKey ps)

/-- A row appended to the sink: the integer timestamp together with the
value list (the formatted date-time column is a pure function of the
timestamp and is omitted). -/
abbrev Row := Nat × List Int

/-- The rows `dl_csv` appends for one page: the body sorted by its
string keys, each key then converted with `int(...)`. -/
def pageRows (m : Measures) : List Row :=
  (sortByKey m.body).map (fun p => (digitsToNat p.1, p.2))

/-- The cursor after processing one page: the running
`if start < timestamp: start = timestamp` over the page's rows,
i.e. a left fold of `max` starting from the incoming cursor. -/
def advancedCursor (start : Nat) (m : Measures) : Nat :=
  (pageRows m).foldl (fun s r => max s r.1) start

/-- The `while True` loop of `dl_csv`, driven by the list of responses
the remote returns (one per request; the loop stops when the list is
exhausted).  Returns the `date_begin` values of the requests issued and
the rows appended to the sink, in order. -/
def dlLoop (dateEnd : Nat) (start : Nat) :
    List Measures → List Nat × List Row
  | [] => ([], [])
  | m :: rest =>
    if ¬ statusOk m then ([start], [])
    else if m.body.isEmpty then ([start], [])
    else
      let adv := advancedCursor start m
      if dateEnd ≤ adv then ([start], pageRows m)
      else
        let next := dlLoop dateEnd (adv + 1) rest
        (start :: next.1, pageRows m ++ next.2)

/-- The initial cursor of `dl_csv`:
`start = last_timestamp(csv_file); if start > 0: start += 1`. -/
def dlStart (file : Option (List Char)) : Nat :=
  let t := last_timestamp file
  if t > 0 then t + 1 else t

/-- A run of `dl_csv` over a sink file: requests issued and rows
appended. -/
def dl_csv (file : Option (List Char)) (dateEnd : Nat)
    (pages : List Measures) : List Nat × List Row :=
  dlLoop dateEnd (dlStart file) pages

/-- The sink after a run: the file is opened in append mode and rows
are only ever written at the end. -/
def sinkAfter (initialRows : List Row) (appended : List Row) : List Row :=
  initialRows ++ appended

/-- Bool-valued chain predicate: every adjacent pair satisfies `r`. -/
def chainB (r : α → α → Bool) : List α → Bool
  | [] => true
  | [_] => true
  | a :: b :: rest => r a b && chainB r (b :: rest)

/-! ## Token manager: state, configuration file, operations -/

/-- The `[netatmo]` section of the rc file.  Each key may be absent. -/
structure CredSection where
  clientId : Option String
  clientSecret : Option String
  username : Option String
  password : Option String
  defaultDeviceId : Option String
deriving Repr, DecidableEq

/-- The `[netatmo/tokens]` section of the rc file.  `expiration` is
`none` when the key is absent or its value does not parse with
`strptime` (the ISO round-trip through `isoformat` is the identity at
second precision, so a well-formed value is just the timestamp). -/
structure TokenSection where
  accessToken : Option String
  refreshToken : Option String
  expiration : Option Int
deriving Repr, DecidableEq

/-- The configuration file, reduced to its two logical sections. -/
structure Config where
  netatmo : Option CredSection
  tokens : Option TokenSection
deriving Repr, DecidableEq

/-- The mutable attributes of `WeatherStation` used by the token
lifecycle. -/
structure WSState where
  clientId : Option String
  clientSecret : Option String
  username : Option String
  password : Option String
  accessToken : Option String
  refreshToken : Option String
  expiration : Option Int
  defaultDeviceId : Option String
  rcFile : Option String
deriving Repr, DecidableEq

/-- Which grant a network request to the token endpoint carries. -/
inductive Grant where
  | password
  | refresh
deriving Repr, DecidableEq

/-- The decoded JSON response of a token request: `null`, a body with
an `error` field, or a successful triple. -/
inductive AuthResponse where
  | nullResp
  | errResp (msg : String)
  | okResp (accessToken refreshToken : String) (expiresIn : Int)
deriving Repr, DecidableEq

/-- What the `access_token` property returns: `None`, `False`, a token
string, or the `TypeError` raised by `self._expiration <= time.time()`
when `_expiration` is `None` while a token is cached. -/
inductive ATResult where
  | noToken
  | failed
  | typeError
  | token (t : String)
deriving Repr, DecidableEq

/-- `WeatherStation.auth`: sets the four credentials and invalidates
the cached access token (the other two token fields are untouched). -/
def auth (ci cs u p : Option String) (st : WSState) : WSState :=
  { st with clientId := ci, clientSecret := cs, username := u,
            password := p, accessToken := none }

/-- `WeatherStation.load_credentials`: reads the `[netatmo]` section;
any missing key raises inside the `try` and the handler falls back to
`auth(None, None, None, None)`. -/
def load_credentials (file : Config) (st : WSState) : WSState :=
  match st.rcFile with
  | none => st
  | some _ =>
    match file.netatmo with
    | none => auth none none none none st
    | some sec =>
      match sec.clientId, sec.clientSecret, sec.username, sec.password with
      | some ci, some cs, some u, some p =>
        let st' := auth (some ci) (some cs) (some u) (some p) st
        match sec.defaultDeviceId with
        | some d => { st' with defaultDeviceId := some d }
        | none => st'
      | _, _, _, _ => auth none none none none st

/-- `WeatherStation.save_credentials`: rewrites the `[netatmo]` section
(`str(...)` turns an absent credential into the literal `"None"`) and
removes the `[netatmo/tokens]` section before writing the file. -/
def pyStr (o : Option String) : String :=
  match o with
  | none => "None"
  | some s => s

def save_credentials (st : WSState) (file : Config) : Config :=
  match st.rcFile with
  | none => file
  | some _ =>
    { netatmo := some ⟨some (pyStr st.clientId), some (pyStr st.clientSecret),
                       some (pyStr st.username), some (pyStr st.password),
                       st.defaultDeviceId⟩,
      tokens := none }

/-- `WeatherStation.load_tokens`: the three assignments run in order
inside a `try`; the handler only clears `_access_token`, so a failure
after `_refresh_token` was assigned keeps the newly read refresh token
and the old expiration. -/
def load_tokens (file : Config) (st : WSState) : WSState :=
  match st.rcFile with
  | none => st
  | some _ =>
    match file.tokens with
    | none => { st with accessToken := none }
    | some sec =>
      match sec.accessToken with
      | none => { st with accessToken := none }
      | some a =>
        match sec.refreshToken with
        | none => { st with accessToken := none }
        | some r =>
          match sec.expiration with
          | none => { st with accessToken := none, refreshToken := some r }
          | some e =>
            { st with accessToken := some a, refreshToken := some r,
                      expiration := some e }

/-- `WeatherStation.save_tokens`: writes the full triple as the
`[netatmo/tokens]` section (a no-op when no rc file is configured). -/
def save_tokens (st : WSState) (file : Config) : Config :=
  match st.rcFile with
  | none => file
  | some _ =>
    { file with tokens := some ⟨st.accessToken, st.refreshToken, st.expiration⟩ }

/-- The outcome of one evaluation of the `access_token` property:
return value, station state afterwards, rc-file contents afterwards,
and the network requests issued (by grant type). -/
structure ATOut where
  result : ATResult
  state : WSState
  file : Config
  grants : List Grant
deriving Repr, DecidableEq

/-- The `access_token` property.  `now` is `time.time()`; `resp` is the
response the token endpoint would return if a request is issued. -/
def access_token (now : Int) (resp : AuthResponse) (st : WSState)
    (file : Config) : ATOut :=
  if st.clientId = none ∨ st.clientSecret = none then
    ⟨.noToken, st, file, []⟩
  else
    match st.accessToken with
    | none =>
      if st.username = none ∨ st.password = none then
        ⟨.noToken, st, file, []⟩
      else
        match resp with
        | .nullResp => ⟨.failed, st, file, [.password]⟩
        | .errResp _ => ⟨.noToken, st, file, [.password]⟩
        | .okResp a r x =>
          let st' := { st with accessToken := some a, refreshToken := some r,
                               expiration := some (x + now) }
          ⟨.token a, st', save_tokens st' file, [.password]⟩
    | some tok =>
      match st.expiration with
      | none => ⟨.typeError, st, file, []⟩
      | some e =>
        if e ≤ now then
          match resp with
          | .nullResp => ⟨.failed, st, file, [.refresh]⟩
          | .errResp _ => ⟨.noToken, st, file, [.refresh]⟩
          | .okResp a r x =>
            let st' := { st with accessToken := some a, refreshToken := some r,
                                 expiration := some (x + now) }
            ⟨.token a, st', save_tokens st' file, [.refresh]⟩
        else ⟨.token tok, st, file, []⟩

/-- The TokenState invariant of the data model: a cached access token
implies a recorded expiration. -/
def tokenInv (st : WSState) : Prop :=
  st.accessToken.isSome → st.expiration.isSome

/-! ## Lemmas about the download loop -/

theorem foldl_max_init_le (l : List Row) (s : Nat) :
    s ≤ l.foldl (fun a r => max a r.1) s := by
  induction l generalizing s with
  | nil => exact Nat.le_refl s
  | cons r l ih =>
    exact Nat.le_trans (Nat.le_max_left s r.1) (ih (max s r.1))

theorem le_advancedCursor (s : Nat) (m : Measures) :
    s ≤ advancedCursor s m :=
  foldl_max_init_le (pageRows m) s

theorem foldl_max_shift (l : List Nat) (s : Nat) :
    l.foldl max s = max s (l.foldl max 0) := by
  induction l generalizing s with
  | nil => simp
  | cons a l ih =>
    simp only [List.foldl_cons]
    rw [ih (max s a), ih (max 0 a)]
    omega

theorem advancedCursor_eq_max (s : Nat) (m : Measures) :
    advancedCursor s m = max s (((pageRows m).map Prod.fst).foldl max 0) := by
  unfold advancedCursor
  rw [← List.foldl_map Prod.fst max (pageRows m) s,
      foldl_max_shift ((pageRows m).map Prod.fst) s]

theorem dlLoop_requests_ge (d : Nat) :
    ∀ (pages : List Measures) (s r : Nat), r ∈ (dlLoop d s pages).1 → s ≤ r := by
  intro pages
  induction pages with
  | nil => intro s r h; simp [dlLoop] at h
  | cons m rest ih =>
    intro s r h
    by_cases hok : statusOk m
    · by_cases hemp : m.body.isEmpty
      · simp [dlLoop, hok, hemp] at h
        omega
      · by_cases hend : d ≤ advancedCursor s m
        · simp [dlLoop, hok, hemp, hend] at h
          omega
        · simp [dlLoop, hok, hemp, hend] at h
          rcases h with h | h
          · omega
          · have h1 := ih (advancedCursor s m + 1) r h
            have h2 := le_advancedCursor s m
            omega
    · simp [dlLoop, hok] at h
      omega

theorem dlLoop_head (d s : Nat) (m : Measures) (rest : List Measures) :
    (dlLoop d s (m :: rest)).1.head? = some s := by
  by_cases hok : statusOk m
  · by_cases hemp : m.body.isEmpty
    · simp [dlLoop, hok, hemp]
    · by_cases hend : d ≤ advancedCursor s m
      · simp [dlLoop, hok, hemp, hend]
      · simp [dlLoop, hok, hemp, hend]
  · simp [dlLoop, hok]

/-- C1: for a run of `dl_csv` over a sink whose recovered last
timestamp is `T > 0`, the first request carries `date_begin = T + 1`,
and no request of the run has `date_begin ≤ T`. -/
theorem dl_csv_resumes_strictly_after_cursor
    (file : Option (List Char)) (T dateEnd : Nat) (pages : List Measures)
    (hT : last_timestamp file = T) (hpos : 0 < T) (hne : pages ≠ []) :
    (dl_csv file dateEnd pages).1.head? = some (T + 1) ∧
    ∀ r ∈ (dl_csv file dateEnd pages).1, T < r := by
  have hstart : dlStart file = T + 1 := by
    unfold dlStart
    rw [hT]
    simp [hpos]
  constructor
  · match pages, hne with
    | m :: rest, _ =>
      unfold dl_csv
      rw [hstart]
      exact dlLoop_head dateEnd (T + 1) m rest
  · intro r hr
    unfold dl_csv at hr
    rw [hstart] at hr
    have := dlLoop_requests_ge dateEnd pages (T + 1) r hr
    omega

/-- Witness for C1 at a concrete sink file and page list. -/
theorem dl_csv_resumes_strictly_after_cursor_instance :
    (dl_csv (some "5;x\n".data) 100 [⟨some "ok".data, []⟩]).1.head? = some 6 ∧
    ∀ r ∈ (dl_csv (some "5;x\n".data) 100 [⟨some "ok".data, []⟩]).1, 5 < r :=
  dl_csv_resumes_strictly_after_cursor (some "5;x\n".data) 5 100
    [⟨some "ok".data, []⟩] (by decide) (by decide) (by decide)

/-- C5: a loop iteration that neither breaks nor reaches the target
continues with cursor `advancedCursor start page + 1`, which equals
`max start (largest page timestamp) + 1` and is strictly greater than
`start`; the `date_begin` values therefore increase by at least 1 per
iteration. -/
theorem dlLoop_cursor_strictly_advances
    (d s : Nat) (m : Measures) (rest : List Measures)
    (hok : statusOk m = true) (hne : m.body.isEmpty = false)
    (hlt : advancedCursor s m < d) :
    dlLoop d s (m :: rest)
      = (s :: (dlLoop d (advancedCursor s m + 1) rest).1,
         pageRows m ++ (dlLoop d (advancedCursor s m + 1) rest).2) ∧
    advancedCursor s m = max s (((pageRows m).map Prod.fst).foldl max 0) ∧
    s < advancedCursor s m + 1 := by
  refine ⟨?_, advancedCursor_eq_max s m, ?_⟩
  · simp [dlLoop, hok, hne, Nat.not_le.mpr hlt]
  · have := le_advancedCursor s m
    omega

/-- Witness for C5 at a concrete page. -/
theorem dlLoop_cursor_strictly_advances_instance :
    dlLoop 100 5 [⟨some "ok".data, [("7".data, [1])]⟩]
      = (5 :: (dlLoop 100 8 []).1, pageRows ⟨some "ok".data, [("7".data, [1])]⟩
          ++ (dlLoop 100 8 []).2) ∧
    advancedCursor 5 ⟨some "ok".data, [("7".data, [1])]⟩
      = max 5 (((pageRows ⟨some "ok".data, [("7".data, [1])]⟩).map Prod.fst).foldl max 0) ∧
    5 < advancedCursor 5 ⟨some "ok".data, [("7".data, [1])]⟩ + 1 :=
  dlLoop_cursor_strictly_advances 100 5 ⟨some "ok".data, [("7".data, [1])]⟩ []
    (by decide) (by decide) (by decide)

/-- C6: on a response whose status is absent or differs from `"ok"`,
the loop stops at once: the failing request is the last one, no rows
are appended for that response, and the sink keeps exactly the rows it
had when the response arrived. -/
theorem dlLoop_stops_on_bad_status
    (d s : Nat) (m : Measures) (rest : List Measures)
    (hbad : statusOk m = false) :
    dlLoop d s (m :: rest) = ([s], []) ∧
    ∀ initialRows : List Row,
      sinkAfter initialRows (dlLoop d s (m :: rest)).2 = initialRows := by
  have h : dlLoop d s (m :: rest) = ([s], []) := by
    simp [dlLoop, hbad]
  exact ⟨h, fun initialRows => by simp [h, sinkAfter]⟩

/-- Witness for C6 at a concrete bad-status response. -/
theorem dlLoop_stops_on_bad_status_instance :
    dlLoop 100 7 [⟨some "error".data, [("9".data, [1])]⟩] = ([7], []) ∧
    ∀ initialRows : List Row,
      sinkAfter initialRows
        (dlLoop 100 7 [⟨some "error".data, [("9".data, [1])]⟩]).2 = initialRows :=
  dlLoop_stops_on_bad_status 100 7 ⟨some "error".data, [("9".data, [1])]⟩ []
    (by decide)

/-! ## Lemmas about the per-page sort -/

/-- The non-strict counterpart of `pyStrLt`, as a relation on body
entries: `p` may precede `q` when `q`'s key is not strictly below
`p`'s. -/
def keyLe (p q : List Char × List Int) : Bool :=
  !pyStrLt q.1 p.1

theorem char_toNat_inj {c d : Char} (h : c.toNat = d.toNat) : c = d :=
  Char.eq_of_val_eq (UInt32.toNat.inj h)

theorem pyStrLt_asymm : ∀ a b, pyStrLt a b = true → pyStrLt b a = false := by
  intro a
  induction a with
  | nil =>
    intro b h
    cases b with
    | nil => simp [pyStrLt] at h
    | cons d ds => simp [pyStrLt]
  | cons c cs ih =>
    intro b h
    cases b with
    | nil => simp [pyStrLt] at h
    | cons d ds =>
      simp only [pyStrLt] at h ⊢
      by_cases h1 : c.toNat < d.toNat
      · simp [h1, Nat.not_lt.mpr (Nat.le_of_lt h1)]
      · by_cases h2 : d.toNat < c.toNat
        · simp [h1, h2] at h
        · simp only [h1, h2, if_false] at h
          simp [h1, h2, ih ds h]

theorem pyStrLt_eq_of_not_lt :
    ∀ a b, pyStrLt a b = false → pyStrLt b a = false → a = b := by
  intro a
  induction a with
  | nil =>
    intro b h1 h2
    cases b with
    | nil => rfl
    | cons d ds => simp [pyStrLt] at h1
  | cons c cs ih =>
    intro b h1 h2
    cases b with
    | nil => simp [pyStrLt] at h2
    | cons d ds =>
      simp only [pyStrLt] at h1 h2
      by_cases hcd : c.toNat < d.toNat
      · simp [hcd] at h1
      · by_cases hdc : d.toNat < c.toNat
        · simp [hdc, Nat.not_lt.mpr (Nat.le_of_lt hdc)] at h2
        · simp only [hcd, hdc, if_false] at h1 h2
          have hc : c = d := char_toNat_inj (by omega)
          rw [hc, ih ds h1 h2]

theorem chainB_insertByKey (p : List Char × List Int) :
    ∀ l, chainB keyLe l = true → chainB keyLe (insertByKey p l) = true := by
  intro l
  induction l with
  | nil => intro _; simp [insertByKey, chainB]
  | cons q qs ih =>
    intro hchain
    by_cases hpq : pyStrLt p.1 q.1
    · simp only [insertByKey, hpq, if_true]
      have : keyLe p q = true := by
        simp [keyLe, pyStrLt_asymm _ _ hpq]
      simp [chainB, this, hchain]
    · simp only [insertByKey, hpq, if_false]
      cases qs with
      | nil =>
        simp only [insertByKey]
        have : keyLe q p = true := by
          simp [keyLe]
          simpa using hpq
        simp [chainB, this]
      | cons q' qs' =>
        have hch' : chainB keyLe (q' :: qs') = true := by
          simp [chainB] at hchain
          exact hchain.2
        have hqq' : keyLe q q' = true := by
          simp [chainB] at hchain
          exact hchain.1
        have hrec := ih hch'
        by_cases hpq' : pyStrLt p.1 q'.1
        · simp only [insertByKey, hpq', if_true] at hrec ⊢
          have : keyLe q p = true := by
            simp [keyLe]
            simpa using hpq
          simp [chainB] at hrec ⊢
          exact ⟨this, hrec⟩
        · simp only [insertByKey, hpq', if_false] at hrec ⊢
          simp [chainB] at hrec ⊢
          exact ⟨hqq', hrec⟩

theorem chainB_sortByKey : ∀ l, chainB keyLe (sortByKey l) = true := by
  intro l
  induction l with
  | nil => simp [sortByKey, chainB]
  | cons p ps ih => exact chainB_insertByKey p (sortByKey ps) ih

theorem mem_insertByKey {q p : List Char × List Int} :
    ∀ l, q ∈ insertByKey p l → q = p ∨ q ∈ l := by
  intro l
  induction l with
  | nil => intro h; simp [insertByKey] at h; exact Or.inl h
  | cons r rs ih =>
    intro h
    by_cases hpr : pyStrLt p.1 r.1
    · simp only [insertByKey, hpr, if_true] at h
      rcases List.mem_cons.mp h with h | h
      · exact Or.inl h
      · exact Or.inr h
    · simp only [insertByKey, hpr, if_false] at h
      rcases List.mem_cons.mp h with h | h
      · exact Or.inr (List.mem_cons.mpr (Or.inl h))
      · rcases ih h with h | h
        · exact Or.inl h
        · exact Or.inr (List.mem_cons.mpr (Or.inr h))

theorem mem_sortByKey {q : List Char × List Int} :
    ∀ l, q ∈ sortByKey l → q ∈ l := by
  intro l
  induction l with
  | nil => intro h; simp [sortByKey] at h
  | cons p ps ih =>
    intro h
    rcases mem_insertByKey (sortByKey ps) h with h | h
    · simp [h]
    · exact List.mem_cons.mpr (Or.inr (ih h))

/-! ## Decimal value of digit strings versus the string order -/

theorem digits_foldl_shift (l : List Char) :
    ∀ a : Nat, l.foldl (fun acc c => acc * 10 + (c.toNat - 48)) a
      = a * 10 ^ l.length + digitsToNat l := by
  induction l with
  | nil => intro a; simp [digitsToNat]
  | cons c cs ih =>
    intro a
    have h0 : digitsToNat (c :: cs)
        = (c.toNat - 48) * 10 ^ cs.length + digitsToNat cs := by
      show (c :: cs).foldl (fun acc c => acc * 10 + (c.toNat - 48)) 0
          = (c.toNat - 48) * 10 ^ cs.length + digitsToNat cs
      simp only [List.foldl_cons]
      rw [ih (0 * 10 + (c.toNat - 48))]
      ring
    simp only [List.foldl_cons]
    rw [ih (a * 10 + (c.toNat - 48)), h0, List.length_cons, pow_succ]
    ring

theorem digitsToNat_cons (c : Char) (cs : List Char) :
    digitsToNat (c :: cs) = (c.toNat - 48) * 10 ^ cs.length + digitsToNat cs := by
  show (c :: cs).foldl (fun acc c => acc * 10 + (c.toNat - 48)) 0
      = (c.toNat - 48) * 10 ^ cs.length + digitsToNat cs
  simp only [List.foldl_cons]
  rw [digits_foldl_shift cs (0 * 10 + (c.toNat - 48))]
  ring

theorem digitsToNat_lt_pow :
    ∀ l : List Char, (∀ c ∈ l, pyDigit c = true) → digitsToNat l < 10 ^ l.length := by
  intro l
  induction l with
  | nil => intro _; simp [digitsToNat]
  | cons c cs ih =>
    intro h
    have hc : c.toNat ≤ 57 := by
      have := h c (List.mem_cons_self c cs)
      simp [pyDigit] at this
      omega
    have hcs := ih (fun d hd => h d (List.mem_cons_of_mem c hd))
    rw [digitsToNat_cons, List.length_cons, pow_succ]
    have h1 : (c.toNat - 48) ≤ 9 := by omega
    calc (c.toNat - 48) * 10 ^ cs.length + digitsToNat cs
        < (c.toNat - 48) * 10 ^ cs.length + 10 ^ cs.length := by omega
      _ = (c.toNat - 48 + 1) * 10 ^ cs.length := by ring
      _ ≤ 10 * 10 ^ cs.length := by
          exact Nat.mul_le_mul_right _ (by omega)
      _ = 10 ^ cs.length * 10 := by ring

theorem digitsToNat_lt_of_pyStrLt :
    ∀ (a b : List Char), a.length = b.length →
      (∀ c ∈ a, pyDigit c = true) → (∀ c ∈ b, pyDigit c = true) →
      pyStrLt a b = true → digitsToNat a < digitsToNat b := by
  intro a
  induction a with
  | nil =>
    intro b hlen _ _ hlt
    cases b with
    | nil => simp [pyStrLt] at hlt
    | cons d ds => simp at hlen
  | cons c cs ih =>
    intro b hlen hda hdb hlt
    cases b with
    | nil => simp [pyStrLt] at hlt
    | cons d ds =>
      have hlen' : cs.length = ds.length := by simpa using hlen
      have hc48 : 48 ≤ c.toNat ∧ c.toNat ≤ 57 := by
        have := hda c (List.mem_cons_self c cs)
        simp [pyDigit] at this
        omega
      have hd48 : 48 ≤ d.toNat ∧ d.toNat ≤ 57 := by
        have := hdb d (List.mem_cons_self d ds)
        simp [pyDigit] at this
        omega
      simp only [pyStrLt] at hlt
      by_cases h1 : c.toNat < d.toNat
      · rw [digitsToNat_cons, digitsToNat_cons, hlen']
        have hbound := digitsToNat_lt_pow cs
          (fun e he => hda e (List.mem_cons_of_mem c he))
        rw [hlen'] at hbound
        calc (c.toNat - 48) * 10 ^ ds.length + digitsToNat cs
            < (c.toNat - 48) * 10 ^ ds.length + 10 ^ ds.length := by omega
          _ = (c.toNat - 48 + 1) * 10 ^ ds.length := by ring
          _ ≤ (d.toNat - 48) * 10 ^ ds.length :=
              Nat.mul_le_mul_right _ (by omega)
          _ ≤ (d.toNat - 48) * 10 ^ ds.length + digitsToNat ds :=
              Nat.le_add_right _ _
      · by_cases h2 : d.toNat < c.toNat
        · simp [h1, h2] at hlt
        · simp only [h1, h2, if_false] at hlt
          have hcd : c.toNat = d.toNat := by omega
          rw [digitsToNat_cons, digitsToNat_cons, hlen', hcd]
          have := ih ds hlen'
            (fun e he => hda e (List.mem_cons_of_mem c he))
            (fun e he => hdb e (List.mem_cons_of_mem d he)) hlt
          omega

theorem digitsToNat_le_of_keyLe (a b : List Char)
    (hlen : a.length = b.length)
    (hda : ∀ c ∈ a, pyDigit c = true) (hdb : ∀ c ∈ b, pyDigit c = true)
    (h : pyStrLt b a = false) : digitsToNat a ≤ digitsToNat b := by
  by_cases hab : pyStrLt a b
  · exact Nat.le_of_lt (digitsToNat_lt_of_pyStrLt a b hlen hda hdb hab)
  · have : a = b := pyStrLt_eq_of_not_lt a b (by simpa using hab) h
    rw [this]

theorem chainB_numeric_of_chainB_keyLe (L : Nat) :
    ∀ l : List (List Char × List Int),
      (∀ p ∈ l, (∀ c ∈ p.1, pyDigit c = true) ∧ p.1.length = L) →
      chainB keyLe l = true →
      chainB Nat.ble (l.map (fun p => digitsToNat p.1)) = true := by
  intro l
  induction l with
  | nil => intro _ _; simp [chainB]
  | cons p rest ih =>
    intro hmem hchain
    cases rest with
    | nil => simp [chainB]
    | cons q t =>
      simp only [chainB, Bool.and_eq_true] at hchain
      have hp := hmem p (List.mem_cons_self p _)
      have hq := hmem q (List.mem_cons_of_mem p (List.mem_cons_self q t))
      have hle : digitsToNat p.1 ≤ digitsToNat q.1 := by
        apply digitsToNat_le_of_keyLe p.1 q.1 (by rw [hp.2, hq.2]) hp.1 hq.1
        have := hchain.1
        simp [keyLe] at this
        exact this
      have htail := ih (fun r hr => hmem r (List.mem_cons_of_mem p hr)) hchain.2
      simp only [List.map_cons] at htail ⊢
      simp [chainB] at htail ⊢
      exact ⟨hle, htail⟩

/-- C2, counterexample: a page whose timestamp keys have different
digit counts.  Python sorts the keys as strings, so `"10"` precedes
`"9"` and the appended rows are 10 then 9 — decreasing in the numeric
timestamp, contrary to the claim. -/
theorem pageRows_numeric_order_cex :
    ((pageRows ⟨some "ok".data, [("9".data, [1]), ("10".data, [2])]⟩).map
        Prod.fst = [10, 9]) ∧
    chainB Nat.ble
      ((pageRows ⟨some "ok".data, [("9".data, [1]), ("10".data, [2])]⟩).map
        Prod.fst) = false := by
  constructor
  · rfl
  · rfl

/-- C2 (amended): the rows appended for a page are non-decreasing in
the lexicographic (code-point) order of the timestamp key strings; when
all keys of the page are digit strings with the same number of digits,
this coincides with numeric order and the appended timestamps are
non-decreasing as integers. -/
theorem pageRows_sorted_by_key
    (m : Measures) (L : Nat)
    (hkeys : ∀ p ∈ m.body, (∀ c ∈ p.1, pyDigit c = true) ∧ p.1.length = L) :
    chainB keyLe (sortByKey m.body) = true ∧
    chainB Nat.ble ((pageRows m).map Prod.fst) = true := by
  refine ⟨chainB_sortByKey m.body, ?_⟩
  have hmap : (pageRows m).map Prod.fst
      = (sortByKey m.body).map (fun p => digitsToNat p.1) := by
    simp [pageRows, List.map_map]
  rw [hmap]
  exact chainB_numeric_of_chainB_keyLe L (sortByKey m.body)
    (fun p hp => hkeys p (mem_sortByKey m.body hp))
    (chainB_sortByKey m.body)

/-- Witness for C2 (amended) at a concrete page with equal-length
keys arriving out of order. -/
theorem pageRows_sorted_by_key_instance :
    chainB keyLe
      (sortByKey [("20".data, ([2] : List Int)), ("10".data, [1])]) = true ∧
    chainB Nat.ble
      ((pageRows ⟨some "ok".data, [("20".data, [2]), ("10".data, [1])]⟩).map
        Prod.fst) = true :=
  pageRows_sorted_by_key ⟨some "ok".data, [("20".data, [2]), ("10".data, [1])]⟩
    2 (by decide)

/-! ## Structure of `pyLines` and the 100-byte window -/

theorem mem_of_mem_dropLast {α} {a : α} : ∀ l : List α, a ∈ l.dropLast → a ∈ l := by
  intro l
  induction l with
  | nil => intro h; simp at h
  | cons b t ih =>
    intro h
    cases t with
    | nil => simp at h
    | cons c t' =>
      simp only [List.dropLast] at h
      rcases List.mem_cons.mp h with h | h
      · simp [h]
      · exact List.mem_cons.mpr (Or.inr (ih h))

theorem getLast?_append_right {α} (l₁ l₂ : List α) (h : l₂ ≠ []) :
    (l₁ ++ l₂).getLast? = l₂.getLast? := by
  rw [List.getLast?_append]
  cases hl : l₂.getLast? with
  | none => exact absurd (List.getLast?_eq_none_iff.mp hl) h
  | some a => rfl

theorem getLastD_irrel {α} (l : List α) (d d' : α) (h : l ≠ []) :
    l.getLastD d = l.getLastD d' := by
  cases l with
  | nil => exact absurd rfl h
  | cons a t => rw [List.getLastD_cons, List.getLastD_cons]

theorem pyLinesAux_ne_nil :
    ∀ (s cur : List Char), (s ≠ [] ∨ cur ≠ []) → pyLinesAux cur s ≠ [] := by
  intro s
  induction s with
  | nil =>
    intro cur h
    rcases h with h | h
    · exact absurd rfl h
    · simp [pyLinesAux, h]
  | cons c cs ih =>
    intro cur h
    by_cases hc : c = '\n'
    · simp [pyLinesAux, hc]
    · simp only [pyLinesAux, hc, if_false]
      exact ih (c :: cur) (Or.inr (by simp))

theorem pyLinesAux_nil (cur : List Char) :
    pyLinesAux cur [] = if cur.isEmpty then [] else [cur.reverse] := rfl

theorem pyLinesAux_cons (cur : List Char) (c : Char) (cs : List Char) :
    pyLinesAux cur (c :: cs)
      = if c = '\n' then (cur.reverse ++ ['\n']) :: pyLinesAux [] cs
        else pyLinesAux (c :: cur) cs := rfl

theorem pyLines_last_props :
    ∀ (s cur : List Char), (∀ c ∈ cur, c ≠ '\n') → (s ≠ [] ∨ cur ≠ []) →
      (pyLinesAux cur s).getLastD [] ≠ [] ∧
      (∀ c ∈ ((pyLinesAux cur s).getLastD []).dropLast, c ≠ '\n') := by
  intro s
  induction s with
  | nil =>
    intro cur hcur h
    have hc : cur ≠ [] := by
      rcases h with h | h
      · exact absurd rfl h
      · exact h
    rw [pyLinesAux_nil, if_neg (by simpa using hc)]
    refine ⟨by simpa using hc, ?_⟩
    intro c hcm
    exact hcur c (by simpa using mem_of_mem_dropLast _ hcm)
  | cons c cs ih =>
    intro cur hcur h
    by_cases hc : c = '\n'
    · subst hc
      cases cs with
      | nil =>
        have heq : pyLinesAux cur ['\n'] = [cur.reverse ++ ['\n']] := by
          rw [pyLinesAux_cons, if_pos rfl, pyLinesAux_nil]
          simp
        rw [heq]
        have hval : ([cur.reverse ++ ['\n']] : List (List Char)).getLastD []
            = cur.reverse ++ ['\n'] := rfl
        rw [hval]
        constructor
        · simp
        · intro e he
          rw [List.dropLast_concat] at he
          exact hcur e (by simpa using he)
      | cons d ds =>
        have htail : pyLinesAux [] (d :: ds) ≠ [] :=
          pyLinesAux_ne_nil (d :: ds) [] (Or.inl (by simp))
        have heq : pyLinesAux cur ('\n' :: d :: ds)
            = (cur.reverse ++ ['\n']) :: pyLinesAux [] (d :: ds) := by
          rw [pyLinesAux_cons, if_pos rfl]
        rw [heq, List.getLastD_cons, getLastD_irrel _ _ [] htail]
        exact ih [] (by simp) (Or.inl (by simp))
    · rw [pyLinesAux_cons, if_neg hc]
      apply ih (c :: cur)
      · intro e he
        rcases List.mem_cons.mp he with he | he
        · rw [he]; exact hc
        · exact hcur e he
      · exact Or.inr (by simp)

theorem pyLines_decomp :
    ∀ (s cur : List Char), (s ≠ [] ∨ cur ≠ []) →
      ∃ pre, cur.reverse ++ s = pre ++ (pyLinesAux cur s).getLastD [] ∧
        (pre = [] ∨ pre.getLast? = some '\n') := by
  intro s
  induction s with
  | nil =>
    intro cur h
    have hc : cur ≠ [] := by
      rcases h with h | h
      · exact absurd rfl h
      · exact h
    rw [pyLinesAux_nil, if_neg (by simpa using hc)]
    exact ⟨[], by simp, Or.inl rfl⟩
  | cons c cs ih =>
    intro cur h
    by_cases hc : c = '\n'
    · subst hc
      cases cs with
      | nil =>
        have heq : pyLinesAux cur ['\n'] = [cur.reverse ++ ['\n']] := by
          rw [pyLinesAux_cons, if_pos rfl, pyLinesAux_nil]
          simp
        rw [heq]
        exact ⟨[], by simp, Or.inl rfl⟩
      | cons d ds =>
        have htail : pyLinesAux [] (d :: ds) ≠ [] :=
          pyLinesAux_ne_nil (d :: ds) [] (Or.inl (by simp))
        have heq : pyLinesAux cur ('\n' :: d :: ds)
            = (cur.reverse ++ ['\n']) :: pyLinesAux [] (d :: ds) := by
          rw [pyLinesAux_cons, if_pos rfl]
        rcases ih [] (Or.inl (by simp)) with ⟨pre', hdec, hpre'⟩
        simp only [List.reverse_nil, List.nil_append] at hdec
        refine ⟨cur.reverse ++ '\n' :: pre', ?_, ?_⟩
        · rw [heq, List.getLastD_cons, getLastD_irrel _ _ [] htail]
          conv_lhs => rw [hdec]
          simp
        · right
          rw [getLast?_append_right _ _ (by simp)]
          cases pre' with
          | nil => rfl
          | cons x xs =>
            rw [List.getLast?_cons_cons]
            rcases hpre' with h' | h'
            · exact absurd h' (by simp)
            · exact h'
    · rw [pyLinesAux_cons, if_neg hc]
      rcases ih (c :: cur) (Or.inr (by simp)) with ⟨pre, hdec, hpre⟩
      refine ⟨pre, ?_, hpre⟩
      rw [← hdec]
      simp

theorem pyLines_single :
    ∀ (L cur : List Char), (L ≠ [] ∨ cur ≠ []) → (∀ c ∈ L.dropLast, c ≠ '\n') →
      pyLinesAux cur L = [cur.reverse ++ L] := by
  intro L
  induction L with
  | nil =>
    intro cur h _
    have hc : cur ≠ [] := by
      rcases h with h | h
      · exact absurd rfl h
      · exact h
    rw [pyLinesAux_nil, if_neg (by simpa using hc)]
    simp
  | cons c cs ih =>
    intro cur _ hmid
    cases cs with
    | nil =>
      by_cases hc : c = '\n'
      · subst hc
        rw [pyLinesAux_cons, if_pos rfl, pyLinesAux_nil]
        simp
      · rw [pyLinesAux_cons, if_neg hc, pyLinesAux_nil]
        simp
    | cons d ds =>
      have hc : c ≠ '\n' := by
        apply hmid
        simp [List.dropLast]
      rw [pyLinesAux_cons, if_neg hc,
          ih (c :: cur) (Or.inl (by simp)) ?hmid]
      · simp
      case hmid =>
        intro e he
        apply hmid
        simp only [List.dropLast]
        exact List.mem_cons.mpr (Or.inr he)

theorem pyLines_append_newline :
    ∀ (pre rest cur : List Char), pre.getLast? = some '\n' →
      pyLinesAux cur (pre ++ rest) = pyLinesAux cur pre ++ pyLines rest := by
  intro pre
  induction pre with
  | nil => intro rest cur h; simp at h
  | cons c pre' ih =>
    intro rest cur h
    cases pre' with
    | nil =>
      simp only [List.getLast?_singleton, Option.some.injEq] at h
      subst h
      rw [List.cons_append, pyLinesAux_cons, if_pos rfl, pyLinesAux_cons,
          if_pos rfl, pyLinesAux_nil]
      simp [pyLines]
    | cons d ds =>
      rw [List.getLast?_cons_cons] at h
      by_cases hc : c = '\n'
      · subst hc
        rw [List.cons_append]
        have h1 : pyLinesAux cur ('\n' :: ((d :: ds) ++ rest))
            = (cur.reverse ++ ['\n']) :: pyLinesAux [] ((d :: ds) ++ rest) := by
          rw [pyLinesAux_cons, if_pos rfl]
        have h2 : pyLinesAux cur ('\n' :: d :: ds)
            = (cur.reverse ++ ['\n']) :: pyLinesAux [] (d :: ds) := by
          rw [pyLinesAux_cons, if_pos rfl]
        rw [h1, ih rest [] h, h2]
        simp
      · rw [List.cons_append, pyLinesAux_cons, if_neg hc, pyLinesAux_cons,
            if_neg hc]
        exact ih rest (c :: cur) h

theorem window_getLast (content L : List Char) (hne : content ≠ [])
    (hL : (pyLines content).getLastD [] = L) (hfit : L.length ≤ 100) :
    (pyLines (content.drop (content.length - min content.length 100))).getLastD []
      = L := by
  by_cases hlen : content.length ≤ 100
  · rw [min_eq_left hlen, Nat.sub_self, List.drop_zero, hL]
  · push_neg at hlen
    rw [min_eq_right (Nat.le_of_lt hlen)]
    obtain ⟨pre, hdec, hpre⟩ := pyLines_decomp content [] (Or.inl hne)
    simp only [List.reverse_nil, List.nil_append] at hdec
    have hL' : (pyLinesAux [] content).getLastD [] = L := hL
    rw [hL'] at hdec
    obtain ⟨hLne, hLmid⟩ := pyLines_last_props content [] (by simp) (Or.inl hne)
    rw [hL'] at hLne hLmid
    have hlenc : content.length = pre.length + L.length := by
      rw [hdec, List.length_append]
    have hLsingle : pyLines L = [L] := by
      unfold pyLines
      rw [pyLines_single L [] (Or.inl hLne) hLmid]
      simp
    by_cases hL100 : L.length = 100
    · have hd : content.length - 100 = pre.length := by omega
      rw [hd]
      conv_lhs => rw [hdec]
      rw [List.drop_append_of_le_length (Nat.le_refl _), List.drop_length,
          List.nil_append, hLsingle]
      rfl
    · have hLlt : L.length < 100 := Nat.lt_of_le_of_ne hfit hL100
      have hn : content.length - 100 < pre.length := by omega
      have hpre_ne : pre ≠ [] := by
        intro h0
        rw [h0] at hlenc
        simp at hlenc
        omega
      have hpre_nl : pre.getLast? = some '\n' := by
        rcases hpre with h0 | h0
        · exact absurd h0 hpre_ne
        · exact h0
      have hd : content.drop (content.length - 100)
          = pre.drop (content.length - 100) ++ L := by
        have hgen : ∀ n, n ≤ pre.length → content.drop n = pre.drop n ++ L := by
          intro n hn2
          rw [hdec]
          exact List.drop_append_of_le_length hn2
        exact hgen _ (by omega)
      have hdrop_ne : pre.drop (content.length - 100) ≠ [] := by
        intro h0
        have h1 := List.length_drop (content.length - 100) pre
        rw [h0] at h1
        simp at h1
        omega
      have hdrop_nl : (pre.drop (content.length - 100)).getLast? = some '\n' := by
        have h1 := getLast?_append_right (pre.take (content.length - 100))
          (pre.drop (content.length - 100)) hdrop_ne
        rw [List.take_append_drop] at h1
        rw [← h1]
        exact hpre_nl
      rw [hd]
      unfold pyLines
      rw [pyLines_append_newline (pre.drop (content.length - 100)) L [] hdrop_nl]
      rw [hLsingle, List.getLastD_eq_getLast?,
          getLast?_append_right _ [L] (by simp)]
      rfl

/-- C7 (amended): `last_timestamp` returns 0 for a missing or empty
file; and whenever the file's true last line fits inside the final
100-byte window, the result is computed from the leading field of that
last line — 0 when that field is not numeric — and never from a
non-leading field.  (The counterexample shows the fit hypothesis is
necessary: a last record longer than the window can expose an interior
field.) -/
theorem last_timestamp_total_amended :
    last_timestamp none = 0 ∧
    last_timestamp (some []) = 0 ∧
    ∀ content : List Char, content ≠ [] →
      ((pyLines content).getLastD []).length ≤ 100 →
      last_timestamp (some content)
        = (if pyIsNumeric (pyLeadingField ((pyLines content).getLastD []))
           then digitsToNat (pyLeadingField ((pyLines content).getLastD []))
           else 0) := by
  refine ⟨rfl, rfl, ?_⟩
  intro content hne hfit
  have hwin := window_getLast content _ hne rfl hfit
  have htne : ¬ (min content.length 100 = 0) := by
    have : 0 < content.length := List.length_pos.mpr hne
    omega
  simp only [last_timestamp]
  rw [if_neg htne, hwin]

/-- C7, counterexample: a single CSV record longer than 100 bytes whose
leading field is not numeric.  The 100-byte window starts inside the
record, at the digits of an interior field, so `last_timestamp` returns
777 instead of the claimed 0. -/
def c7content : List Char :=
  "bad;".data ++ List.replicate 50 'p'
    ++ ("777;".data ++ List.replicate 92 'a' ++ "1.0\n".data)

set_option maxRecDepth 8192 in
theorem last_timestamp_nonleading_cex :
    pyIsNumeric (pyLeadingField ((pyLines c7content).getLastD [])) = false ∧
    last_timestamp (some c7content) = 777 := by
  constructor
  · decide
  · decide

/-- Witness for C7 (amended) at a concrete file whose last line has a
non-numeric leading field. -/
theorem last_timestamp_total_amended_instance :
    last_timestamp (some "ab;1\n".data) = 0 := by
  have h := last_timestamp_total_amended.2.2 "ab;1\n".data (by decide) (by decide)
  rw [h]
  decide

/-! ## `get_measure` request assembly -/

/-- The form fields `WeatherStation.get_measure` posts, in assembly
order, for an already-resolved field list (`mtype`).  Python truthiness
governs the optional fields: `date_begin`, `date_end` and `limit` are
added only when non-zero (`None` and `0` are both falsy), and
`module_id` only when a non-empty string was supplied. -/
def get_measure_params (tok deviceId : String) (moduleId : Option String)
    (scale mtype : String) (dateBegin dateEnd limit : Nat)
    (optimize realTime : Bool) : List (String × String) :=
  [("access_token", tok), ("device_id", deviceId)]
    ++ (match moduleId with
        | some m => if m = "" then [] else [("module_id", m)]
        | none => [])
    ++ [("scale", scale), ("type", mtype)]
    ++ (if dateBegin = 0 then [] else [("date_begin", toString dateBegin)])
    ++ (if dateEnd = 0 then [] else [("date_end", toString dateEnd)])
    ++ (if limit = 0 then [] else [("limit", toString limit)])
    ++ [("optimize", if optimize then "true" else "false"),
        ("real_time", if realTime then "true" else "false")]

/-- C9: a `get_measure` call with `date_begin = 0` — the cursor used
for an empty or absent sink, since `dlStart` is then 0 — posts no
`date_begin` field at all, and likewise omits `date_end` and `limit`
when they are 0. -/
theorem get_measure_omits_falsy_range
    (tok deviceId : String) (moduleId : Option String) (scale mtype : String)
    (dateBegin dateEnd limit : Nat) (optimize realTime : Bool)
    (hdb : dateBegin = 0) :
    "date_begin" ∉ (get_measure_params tok deviceId moduleId scale mtype
        dateBegin dateEnd limit optimize realTime).map Prod.fst ∧
    (dateEnd = 0 → "date_end" ∉ (get_measure_params tok deviceId moduleId
        scale mtype dateBegin dateEnd limit optimize realTime).map Prod.fst) ∧
    (limit = 0 → "limit" ∉ (get_measure_params tok deviceId moduleId
        scale mtype dateBegin dateEnd limit optimize realTime).map Prod.fst) ∧
    dlStart none = 0 ∧ dlStart (some []) = 0 := by
  subst hdb
  refine ⟨?_, ?_, ?_, rfl, rfl⟩
  · cases moduleId with
    | none =>
      by_cases h1 : dateEnd = 0 <;> by_cases h2 : limit = 0 <;>
        simp [get_measure_params, h1, h2]
    | some m =>
      by_cases h0 : m = "" <;> by_cases h1 : dateEnd = 0 <;>
        by_cases h2 : limit = 0 <;> simp [get_measure_params, h0, h1, h2]
  · intro hde
    subst hde
    cases moduleId with
    | none => by_cases h2 : limit = 0 <;> simp [get_measure_params, h2]
    | some m =>
      by_cases h0 : m = "" <;> by_cases h2 : limit = 0 <;>
        simp [get_measure_params, h0, h2]
  · intro hli
    subst hli
    cases moduleId with
    | none => by_cases h1 : dateEnd = 0 <;> simp [get_measure_params, h1]
    | some m =>
      by_cases h0 : m = "" <;> by_cases h1 : dateEnd = 0 <;>
        simp [get_measure_params, h0, h1]

/-- Witness for C9 at concrete arguments. -/
theorem get_measure_omits_falsy_range_instance :
    "date_begin" ∉ (get_measure_params "tok" "dev" none "max" "Temperature"
        0 7 0 false false).map Prod.fst ∧
    ((7 : Nat) = 0 → "date_end" ∉ (get_measure_params "tok" "dev" none "max"
        "Temperature" 0 7 0 false false).map Prod.fst) ∧
    ((0 : Nat) = 0 → "limit" ∉ (get_measure_params "tok" "dev" none "max"
        "Temperature" 0 7 0 false false).map Prod.fst) ∧
    dlStart none = 0 ∧ dlStart (some []) = 0 :=
  get_measure_omits_falsy_range "tok" "dev" none "max" "Temperature"
    0 7 0 false false rfl

/-! ## Token lifecycle theorems -/

/-- C3: whenever `access_token` acquires a fresh token triple from the
endpoint (password or refresh grant — i.e. at least one request was
issued and the oracle answered with a success triple), the returned
token is that triple's access token and the rc file already holds the
complete new `TokenSection` when the call returns. -/
theorem access_token_persists_before_return
    (now : Int) (st : WSState) (file : Config) (a r : String) (x : Int)
    (f : String) (hrc : st.rcFile = some f)
    (hgr : (access_token now (.okResp a r x) st file).grants ≠ []) :
    (access_token now (.okResp a r x) st file).result = .token a ∧
    (access_token now (.okResp a r x) st file).file.tokens
      = some ⟨some a, some r, some (x + now)⟩ := by
  rcases hci : st.clientId with _ | ci
  · exact absurd (by simp [access_token, hci]) hgr
  rcases hcs : st.clientSecret with _ | cs
  · exact absurd (by simp [access_token, hci, hcs]) hgr
  rcases hat : st.accessToken with _ | tok
  · rcases hu : st.username with _ | u
    · exact absurd (by simp [access_token, hci, hcs, hat, hu]) hgr
    rcases hp : st.password with _ | p
    · exact absurd (by simp [access_token, hci, hcs, hat, hu, hp]) hgr
    constructor
    · simp [access_token, hci, hcs, hat, hu, hp]
    · simp [access_token, hci, hcs, hat, hu, hp, save_tokens, hrc]
  · rcases he : st.expiration with _ | e
    · exact absurd (by simp [access_token, hci, hcs, hat, he]) hgr
    by_cases hle : e ≤ now
    · constructor
      · simp [access_token, hci, hcs, hat, he, hle]
      · simp [access_token, hci, hcs, hat, he, hle, save_tokens, hrc]
    · exact absurd (by simp [access_token, hci, hcs, hat, he, hle]) hgr

/-- Witness for C3 at a concrete state taking the password-grant path. -/
theorem access_token_persists_before_return_instance :
    (access_token 10 (.okResp "a" "r" 5)
        ⟨some "ci", some "cs", some "u", some "p", none, none, none, none,
          some "rc"⟩ ⟨none, none⟩).result = .token "a" ∧
    (access_token 10 (.okResp "a" "r" 5)
        ⟨some "ci", some "cs", some "u", some "p", none, none, none, none,
          some "rc"⟩ ⟨none, none⟩).file.tokens
      = some ⟨some "a", some "r", some (5 + 10)⟩ :=
  access_token_persists_before_return 10
    ⟨some "ci", some "cs", some "u", some "p", none, none, none, none,
      some "rc"⟩ ⟨none, none⟩ "a" "r" 5 "rc" rfl (by decide)

/-- C4, counterexample: a reachable state holding a valid cached token
(`expiration` strictly in the future) but no client credentials — the
property returns `None`, not the cached token, so the claim as stated
(quantifying over every state with a valid cached token) fails. -/
theorem access_token_fast_path_cex :
    ((⟨none, none, none, none, some "tok", some "r", some 100, none,
        some "rc"⟩ : WSState).accessToken = some "tok") ∧
    ((0 : Int) < 100) ∧
    (access_token 0 (.okResp "n" "m" 5)
        ⟨none, none, none, none, some "tok", some "r", some 100, none,
          some "rc"⟩ ⟨none, none⟩).result = .noToken ∧
    (access_token 0 (.okResp "n" "m" 5)
        ⟨none, none, none, none, some "tok", some "r", some 100, none,
          some "rc"⟩ ⟨none, none⟩).result ≠ .token "tok" := by
  refine ⟨rfl, by decide, rfl, by decide⟩

/-- C4 (amended): when the client credentials are present, a cached
access token whose expiration is strictly in the future is returned
as-is: no network request is issued and neither the station state nor
the rc file changes. -/
theorem access_token_fast_path
    (now : Int) (resp : AuthResponse) (st : WSState) (file : Config)
    (ci cs t : String) (e : Int)
    (h1 : st.clientId = some ci) (h2 : st.clientSecret = some cs)
    (h3 : st.accessToken = some t) (h4 : st.expiration = some e)
    (h5 : now < e) :
    access_token now resp st file = ⟨.token t, st, file, []⟩ := by
  have h6 : ¬ (e ≤ now) := by omega
  simp [access_token, h1, h2, h3, h4, h6]

/-- Witness for C4 (amended) at a concrete state. -/
theorem access_token_fast_path_instance :
    access_token 0 (.okResp "n" "m" 5)
        ⟨some "ci", some "cs", none, none, some "tok", some "r", some 100,
          none, some "rc"⟩ ⟨none, none⟩
      = ⟨.token "tok",
         ⟨some "ci", some "cs", none, none, some "tok", some "r", some 100,
           none, some "rc"⟩, ⟨none, none⟩, []⟩ :=
  access_token_fast_path 0 (.okResp "n" "m" 5)
    ⟨some "ci", some "cs", none, none, some "tok", some "r", some 100,
      none, some "rc"⟩ ⟨none, none⟩ "ci" "cs" "tok" 100 rfl rfl rfl rfl
    (by decide)

/-- C8, counterexample: `load_tokens` on a tokens section whose
`expiration` does not parse assigns the new refresh token, then the
`except` handler clears only `access_token` — leaving a new
`refresh_token` paired with a cleared access token and the stale
expiration, i.e. a torn, half-replaced triple. -/
theorem load_tokens_mixed_update_cex :
    (load_tokens ⟨none, some ⟨some "newA", some "newR", none⟩⟩
        ⟨some "ci", some "cs", some "u", some "p", some "oldA", some "oldR",
          some 50, none, some "rc"⟩).accessToken = none ∧
    (load_tokens ⟨none, some ⟨some "newA", some "newR", none⟩⟩
        ⟨some "ci", some "cs", some "u", some "p", some "oldA", some "oldR",
          some 50, none, some "rc"⟩).refreshToken = some "newR" ∧
    (load_tokens ⟨none, some ⟨some "newA", some "newR", none⟩⟩
        ⟨some "ci", some "cs", some "u", some "p", some "oldA", some "oldR",
          some 50, none, some "rc"⟩).expiration = some 50 ∧
    ((⟨some "ci", some "cs", some "u", some "p", some "oldA", some "oldR",
        some 50, none, some "rc"⟩ : WSState).refreshToken = some "oldR") := by
  refine ⟨rfl, rfl, rfl, rfl⟩

/-- C8 (amended): every token-manager operation (`auth`,
`load_credentials`, `load_tokens`, and the `access_token` property)
preserves the invariant "access token present implies expiration
present"; the wholesale-replacement half of the claim fails, as the
counterexample's torn update in `load_tokens` shows. -/
theorem token_ops_preserve_inv (st : WSState) (hinv : tokenInv st) :
    (∀ ci cs u p, tokenInv (auth ci cs u p st)) ∧
    (∀ file, tokenInv (load_credentials file st)) ∧
    (∀ file, tokenInv (load_tokens file st)) ∧
    (∀ now resp file, tokenInv (access_token now resp st file).state) := by
  refine ⟨?_, ?_, ?_, ?_⟩
  · intro ci cs u p
    simp [auth, tokenInv]
  · intro file
    rcases hrc : st.rcFile with _ | f
    · simpa [load_credentials, hrc] using hinv
    rcases hn : file.netatmo with _ | sec
    · simp [load_credentials, hrc, hn, auth, tokenInv]
    rcases h1 : sec.clientId with _ | ci
    · simp [load_credentials, hrc, hn, h1, auth, tokenInv]
    rcases h2 : sec.clientSecret with _ | cs
    · simp [load_credentials, hrc, hn, h1, h2, auth, tokenInv]
    rcases h3 : sec.username with _ | u
    · simp [load_credentials, hrc, hn, h1, h2, h3, auth, tokenInv]
    rcases h4 : sec.password with _ | p
    · simp [load_credentials, hrc, hn, h1, h2, h3, h4, auth, tokenInv]
    rcases h5 : sec.defaultDeviceId with _ | d <;>
      simp [load_credentials, hrc, hn, h1, h2, h3, h4, h5, auth, tokenInv]
  · intro file
    rcases hrc : st.rcFile with _ | f
    · simpa [load_tokens, hrc] using hinv
    rcases hn : file.tokens with _ | sec
    · simp [load_tokens, hrc, hn, tokenInv]
    rcases h1 : sec.accessToken with _ | a
    · simp [load_tokens, hrc, hn, h1, tokenInv]
    rcases h2 : sec.refreshToken with _ | r
    · simp [load_tokens, hrc, hn, h1, h2, tokenInv]
    rcases h3 : sec.expiration with _ | e <;>
      simp [load_tokens, hrc, hn, h1, h2, h3, tokenInv]
  · intro now resp file
    rcases hci : st.clientId with _ | ci
    · simpa [access_token, hci] using hinv
    rcases hcs : st.clientSecret with _ | cs
    · simpa [access_token, hci, hcs] using hinv
    rcases hat : st.accessToken with _ | tok
    · rcases hu : st.username with _ | u
      · simpa [access_token, hci, hcs, hat, hu] using hinv
      rcases hp : st.password with _ | p
      · simpa [access_token, hci, hcs, hat, hu, hp] using hinv
      rcases resp with _ | msg | ⟨a, r, x⟩ <;>
        simp [access_token, hci, hcs, hat, hu, hp, tokenInv]
    · rcases he : st.expiration with _ | e
      · simpa [access_token, hci, hcs, hat, he] using hinv
      by_cases hle : e ≤ now
      · rcases resp with _ | msg | ⟨a, r, x⟩ <;>
          simp [access_token, hci, hcs, hat, he, hle, tokenInv]
      · simpa [access_token, hci, hcs, hat, he, hle] using hinv

/-- Witness for C8 (amended) at a concrete state satisfying the
invariant. -/
theorem token_ops_preserve_inv_instance :
    (∀ ci cs u p, tokenInv (auth ci cs u p
        ⟨some "ci", some "cs", some "u", some "p", some "tok", some "r",
          some 100, none, some "rc"⟩)) ∧
    (∀ file, tokenInv (load_credentials file
        ⟨some "ci", some "cs", some "u", some "p", some "tok", some "r",
          some 100, none, some "rc"⟩)) ∧
    (∀ file, tokenInv (load_tokens file
        ⟨some "ci", some "cs", some "u", some "p", some "tok", some "r",
          some 100, none, some "rc"⟩)) ∧
    (∀ now resp file, tokenInv (access_token now resp
        ⟨some "ci", some "cs", some "u", some "p", some "tok", some "r",
          some 100, none, some "rc"⟩ file).state) :=
  token_ops_preserve_inv
    ⟨some "ci", some "cs", some "u", some "p", some "tok", some "r",
      some 100, none, some "rc"⟩ (fun _ => rfl)

/-- C10: `save_credentials` writes a configuration without the
`netatmo/tokens` section, so after reloading tokens from that file the
cached access token is gone; any subsequent `access_token` call on the
reloaded state can never use the refresh grant, and can only return a
token through the password grant. -/
theorem save_credentials_erases_tokens
    (st st2 : WSState) (file : Config) (f f2 : String)
    (hrc : st.rcFile = some f) (hrc2 : st2.rcFile = some f2) :
    (save_credentials st file).tokens = none ∧
    (load_tokens (save_credentials st file) st2).accessToken = none ∧
    ∀ now resp file2,
      Grant.refresh ∉ (access_token now resp
          (load_tokens (save_credentials st file) st2) file2).grants ∧
      ∀ t, (access_token now resp
          (load_tokens (save_credentials st file) st2) file2).result
            = .token t →
        (access_token now resp
          (load_tokens (save_credentials st file) st2) file2).grants
          = [Grant.password] := by
  have htok : (save_credentials st file).tokens = none := by
    simp [save_credentials, hrc]
  have hstR : load_tokens (save_credentials st file) st2
      = { st2 with accessToken := none } := by
    simp [load_tokens, hrc2, htok]
  refine ⟨htok, by rw [hstR], ?_⟩
  intro now resp file2
  rw [hstR]
  rcases hci : st2.clientId with _ | ci
  · constructor
    · simp [access_token, hci]
    · intro t ht
      simp [access_token, hci] at ht
  rcases hcs : st2.clientSecret with _ | cs
  · constructor
    · simp [access_token, hci, hcs]
    · intro t ht
      simp [access_token, hci, hcs] at ht
  rcases hu : st2.username with _ | u
  · constructor
    · simp [access_token, hci, hcs, hu]
    · intro t ht
      simp [access_token, hci, hcs, hu] at ht
  rcases hp : st2.password with _ | p
  · constructor
    · simp [access_token, hci, hcs, hu, hp]
    · intro t ht
      simp [access_token, hci, hcs, hu, hp] at ht
  rcases resp with _ | msg | ⟨a, r, x⟩ <;>
    constructor <;>
    simp [access_token, hci, hcs, hu, hp]

/-- Witness for C10 at concrete states and file. -/
theorem save_credentials_erases_tokens_instance :
    (save_credentials
        ⟨some "ci", some "cs", some "u", some "p", some "tok", some "r",
          some 100, none, some "rc"⟩
        ⟨none, some ⟨some "tok", some "r", some 100⟩⟩).tokens = none ∧
    (load_tokens (save_credentials
        ⟨some "ci", some "cs", some "u", some "p", some "tok", some "r",
          some 100, none, some "rc"⟩
        ⟨none, some ⟨some "tok", some "r", some 100⟩⟩)
        ⟨some "ci", some "cs", some "u", some "p", some "tok", some "r",
          some 100, none, some "rc"⟩).accessToken = none ∧
    ∀ now resp file2,
      Grant.refresh ∉ (access_token now resp
          (load_tokens (save_credentials
            ⟨some "ci", some "cs", some "u", some "p", some "tok", some "r",
              some 100, none, some "rc"⟩
            ⟨none, some ⟨some "tok", some "r", some 100⟩⟩)
            ⟨some "ci", some "cs", some "u", some "p", some "tok", some "r",
              some 100, none, some "rc"⟩) file2).grants ∧
      ∀ t, (access_token now resp
          (load_tokens (save_credentials
            ⟨some "ci", some "cs", some "u", some "p", some "tok", some "r",
              some 100, none, some "rc"⟩
            ⟨none, some ⟨some "tok", some "r", some 100⟩⟩)
            ⟨some "ci", some "cs", some "u", some "p", some "tok", some "r",
              some 100, none, some "rc"⟩) file2).result = .token t →
        (access_token now resp
          (load_tokens (save_credentials
            ⟨some "ci", some "cs", some "u", some "p", some "tok", some "r",
              some 100, none, some "rc"⟩
            ⟨none, some ⟨some "tok", some "r", some 100⟩⟩)
            ⟨some "ci", some "cs", some "u", some "p", some "tok", some "r",
              some 100, none, some "rc"⟩) file2).grants = [Grant.password] :=
  save_credentials_erases_tokens
    ⟨some "ci", some "cs", some "u", some "p", some "tok", some "r",
      some 100, none, some "rc"⟩
    ⟨some "ci", some "cs", some "u", some "p", some "tok", some "r",
      some 100, none, some "rc"⟩
    ⟨none, some ⟨some "tok", some "r", some 100⟩⟩ "rc" "rc" rfl rfl
